import Mathlib

/-!
Verification of the islands-3d terrain / collection subsystem.

Shallow embedding of the Rust sources:
 - src/instance_compute.rs : BananaInstances (slot collection, dense flag buffer)
 - src/height_map.rs       : HeightMap (bilinear sampler, chunked mesh builder,
                             normal generation)
 - src/game.rs             : mouse / touch input handling (camera yaw and pitch)

Machine floats of the source are modelled as exact rationals (and as reals in the
normal-generation pass, which needs a square root); machine integers are modelled as
naturals, with Rust panics modelled as Option.none where a claim depends on them.
-/

namespace Islands3D

/-! ## Definitions: collection state, src/instance_compute.rs -/

/-- State of BananaInstances (src/instance_compute.rs, lines 6-14), restricted to the
fields that the CPU-side collection logic reads or writes: the sparse collected list,
the dense 0/1 flag array mirrored to the GPU buffer, and the grid dimensions
num_bananas = (Nx, Ny).  GPU handles (layouts, shader) carry no collection state and
are omitted. -/
structure BananaInstances where
  collected : List (ℕ × ℕ)
  collectedBuffer : List ℕ
  numBananas : ℕ × ℕ
deriving DecidableEq

/-- BananaInstances::new (src/instance_compute.rs, lines 17-64): the collected list
starts empty and the flag buffer is uploaded as Nx*Ny zeros. -/
def BananaInstances.new (n0 n1 : ℕ) : BananaInstances :=
  { collected := [], collectedBuffer := List.replicate (n0 * n1) 0, numBananas := (n0, n1) }

/-- The linear slot index computed by BananaInstances::collect
(src/instance_compute.rs, lines 67 and 74): the row stride is the hard-coded
literal 100, not num_bananas[1], and the u32 arithmetic wraps modulo 2^32
(release-mode Rust semantics; a debug build would panic on the overflow instead,
which is also not a silent no-op). -/
def slotIndex (pos : ℕ × ℕ) : ℕ :=
  (pos.1 * 100 + pos.2) % 4294967296

/-- The dense flag array rebuild of BananaInstances::collect
(src/instance_compute.rs, lines 72-76): start from Nx*Ny zeros and set index
slotIndex p to 1 for every p in the collected list.  List.set is a no-op out of
range, matching the fact that every stored entry passed the bounds check. -/
def buildCollectedArr (n : ℕ) (collected : List (ℕ × ℕ)) : List ℕ :=
  collected.foldl (fun arr pos => arr.set (slotIndex pos) 1) (List.replicate n 0)

/-- BananaInstances::collect (src/instance_compute.rs, lines 66-83): compute
i = pos.0*100 + pos.1; if i >= Nx*Ny return silently; otherwise push pos onto the
collected list, rebuild the dense flag array from the full list and re-upload it. -/
def BananaInstances.collect (s : BananaInstances) (pos : ℕ × ℕ) : BananaInstances :=
  if s.numBananas.1 * s.numBananas.2 ≤ slotIndex pos then s
  else
    { s with
      collected := s.collected ++ [pos],
      collectedBuffer :=
        buildCollectedArr (s.numBananas.1 * s.numBananas.2) (s.collected ++ [pos]) }

/-! ## Definitions: heightmap sampler and mesh builder, src/height_map.rs -/

/-- The decoded grayscale image held by a HeightMap: dimensions plus the first
(grayscale) channel byte of each pixel. -/
structure Image where
  width : ℕ
  height : ℕ
  pixel : ℕ → ℕ → ℕ

/-- image::GenericImageView::get_pixel, which panics when (x, y) is out of bounds;
the panic is modelled as none. -/
def Image.getPixel (img : Image) (x y : ℕ) : Option ℕ :=
  if x < img.width ∧ y < img.height then some (img.pixel x y) else none

/-- Terrain vertex (src/height_map.rs, lines 10-16), generic in the scalar used to
model f32 (exact rationals for the mesh data, reals where normalization occurs). -/
structure Vertex (K : Type) where
  position : K × K × K
  color : K × K × K
  normal : K × K × K
deriving DecidableEq

instance {K : Type} [Zero K] : Inhabited (Vertex K) :=
  ⟨⟨(0, 0, 0), (0, 0, 0), (0, 0, 0)⟩⟩

/-- Rust f32::clamp as used by get_height_at (the source always calls it with
min <= max): if self < min then min else if self > max then max else self. -/
def rustClamp (x lo hi : ℚ) : ℚ :=
  if x < lo then lo else if x > hi then hi else x

/-- Rust f32::trunc, rounding toward zero. -/
def rustTrunc (x : ℚ) : ℚ :=
  if 0 ≤ x then (⌊x⌋ : ℚ) else (⌈x⌉ : ℚ)

/-- Rust f32::fract = self - self.trunc(). -/
def rustFract (x : ℚ) : ℚ :=
  x - rustTrunc x

/-- Rust (f32 as u32) applied to a floored value: negative values saturate to 0. -/
def floorToU32 (x : ℚ) : ℕ :=
  (⌊x⌋).toNat

/-- The HeightMap record (src/height_map.rs, lines 56-63).  Chunk models keep only
their vertex lists; GPU buffer handles carry no data relevant to the claims. -/
structure HeightMap where
  image : Image
  models : List ((ℕ × ℕ) × List (Vertex ℚ))
  width : ℕ
  height : ℕ
  size : ℚ
  height_multiplier : ℚ

/-- HeightMap::get_height_at (src/height_map.rs, lines 185-200): divide world
coordinates by size, clamp to [0, width] x [0, height] (note: width, not width-1),
take fract and floor, sample the four texels (x,y), (x,y+1), (x+1,y), (x+1,y+1) and
blend; an out-of-bounds get_pixel call is a panic, modelled as none. -/
def HeightMap.get_height_at (self : HeightMap) (x y : ℚ) : Option ℚ :=
  let x1 := rustClamp (x / self.size) 0 (self.width : ℚ)
  let y1 := rustClamp (y / self.size) 0 (self.height : ℚ)
  let x_fract := rustFract x1
  let y_fract := rustFract y1
  let xi := floorToU32 x1
  let yi := floorToU32 y1
  match self.image.getPixel xi yi, self.image.getPixel xi (yi + 1),
      self.image.getPixel (xi + 1) yi, self.image.getPixel (xi + 1) (yi + 1) with
  | some p0, some p1, some p2, some p3 =>
      let height0 := (p0 : ℚ) / 255 * self.height_multiplier
      let height1 := (p1 : ℚ) / 255 * self.height_multiplier
      let height2 := (p2 : ℚ) / 255 * self.height_multiplier
      let height3 := (p3 : ℚ) / 255 * self.height_multiplier
      let heightx1 := height0 + (height1 - height0) * x_fract
      let heightx2 := height2 + (height3 - height2) * x_fract
      some (heightx1 + (heightx2 - heightx1) * y_fract)
  | _, _, _, _ => none

/-- The water-line fraction literal 0.1439215686 (src/height_map.rs, line 94). -/
def waterLevelFraction : ℚ :=
  1439215686 / 10000000000

/-- Per-vertex biome color (src/height_map.rs, lines 90-96): green, overwritten by
near-white snow above 0.7 x multiplier, then by dark gray at or below the water
fraction. -/
def vertexColor {K : Type} [LinearOrderedField K] (vh hmul : K) : K × K × K :=
  let c1 := if vh > 7 / 10 * hmul then ((9 : K) / 10, (9 : K) / 10, (9 : K) / 10)
            else ((17 : K) / 255, (124 : K) / 255, (19 : K) / 255)
  if vh ≤ ((1439215686 : K) / 10000000000) * hmul then ((3 : K) / 10, (3 : K) / 10, (3 : K) / 10)
  else c1

/-- The vertex pushed for texel (px, py) by HeightMap::from_bytes
(src/height_map.rs, lines 87-97): position ((px*res)*size, v_height, (py*res)*size),
biome color, and the normal initialized to the unit up vector [0, 1, 0]. -/
def vertexAt {K : Type} [LinearOrderedField K] (img : Image) (res : ℕ) (size hmul : K)
    (px py : ℕ) : Vertex K :=
  let vh := (img.pixel (px * res) (py * res) : K) / 255 * hmul
  { position := (((px * res : ℕ) : K) * size, vh, ((py * res : ℕ) : K) * size),
    color := vertexColor vh hmul,
    normal := (0, 1, 0) }

/-- The extra overlap row/column of a chunk (src/height_map.rs, lines 75-84): one
unless this is the last chunk along the axis. -/
def chunkExtra (chunks c : ℕ) : ℕ :=
  if c = chunks - 1 then 0 else 1

/-- The vertex list of chunk (cx, cy) built by the nested loops of
HeightMap::from_bytes (src/height_map.rs, lines 85-103), x-major, with base offset
chunk index x (dimension/chunks) and the rectangle extended by chunkExtra. -/
def chunkVertices {K : Type} [LinearOrderedField K] (img : Image) (res : ℕ)
    (size hmul : K) (chunks cx cy : ℕ) : List (Vertex K) :=
  let width := img.width / res
  let height := img.height / res
  (List.range (width / chunks + chunkExtra chunks cx)).flatMap fun x =>
    (List.range (height / chunks + chunkExtra chunks cy)).map fun y =>
      vertexAt img res size hmul (x + (width / chunks) * cx) (y + (height / chunks) * cy)

/-- The data-constructing part of HeightMap::from_bytes (src/height_map.rs, lines
66-103 and 136-144): the sampler fields are taken from the full-resolution image
(width and height are image.width() and image.height(), not divided by res), and the
models are the per-chunk vertex lists, which are the only res-dependent data.  The
gen_normals pass (lines 104-128) rewrites only the normal and color fields of these
vertices (modelled as genNormals below) and neither reads nor writes the sampler
fields. -/
def HeightMap.fromBytesData (img : Image) (res : ℕ) (size : ℚ) (chunks : ℕ)
    (hmul : ℚ) : HeightMap :=
  { image := img,
    models := (List.range chunks).flatMap fun cx =>
      (List.range chunks).map fun cy =>
        ((cx, cy), chunkVertices img res size hmul chunks cx cy),
    width := img.width,
    height := img.height,
    size := size,
    height_multiplier := hmul }

/-- One texel sample mapped to world height: sample/255 x height multiplier. -/
def texelHeight (img : Image) (hmul : ℚ) (x y : ℕ) : ℚ :=
  (img.pixel x y : ℚ) / 255 * hmul

/-- Bilinear interpolation exactly as claim C2 words it: the fractional x offset
weights the two corners that differ along the x texel axis, and the fractional y
offset weights the two corners that differ along the y texel axis. -/
def claimedBilinear (img : Image) (hmul : ℚ) (xi yi : ℕ) (fx fy : ℚ) : ℚ :=
  (texelHeight img hmul xi yi + (texelHeight img hmul (xi + 1) yi
      - texelHeight img hmul xi yi) * fx)
  + ((texelHeight img hmul xi (yi + 1) + (texelHeight img hmul (xi + 1) (yi + 1)
        - texelHeight img hmul xi (yi + 1)) * fx)
     - (texelHeight img hmul xi yi + (texelHeight img hmul (xi + 1) yi
        - texelHeight img hmul xi yi) * fx)) * fy

/-! ## Definitions: normal generation pass of from_bytes (real-valued) -/

/-- cgmath InnerSpace::normalize: the vector scaled by one over its magnitude. -/
noncomputable def normalize3 (v : ℝ × ℝ × ℝ) : ℝ × ℝ × ℝ :=
  let mag := Real.sqrt (v.1 * v.1 + v.2.1 * v.2.1 + v.2.2 * v.2.2)
  (v.1 / mag, v.2.1 / mag, v.2.2 / mag)

/-- vertices[i].pos() of the normal pass; the pass only reads in-range indices
(guaranteed by from_bytes), so Rust's panic on a bad index is not reachable and a
default is used instead. -/
def vposAt (vs : List (Vertex ℝ)) (i : ℕ) : ℝ × ℝ × ℝ :=
  (vs.getD i default).position

/-- The face normal of a triangle (v1, v2, v3) as computed at src/height_map.rs,
lines 110-117: cross product of the edge vectors u = p2 - p1 and v = p3 - p1,
normalized. -/
noncomputable def faceNormal (vs : List (Vertex ℝ)) (t : ℕ × ℕ × ℕ) : ℝ × ℝ × ℝ :=
  let p1 := vposAt vs t.1
  let p2 := vposAt vs t.2.1
  let p3 := vposAt vs t.2.2
  let u := (p2.1 - p1.1, p2.2.1 - p1.2.1, p2.2.2 - p1.2.2)
  let v := (p3.1 - p1.1, p3.2.1 - p1.2.1, p3.2.2 - p1.2.2)
  normalize3 (u.2.1 * v.2.2 - u.2.2 * v.2.1, u.2.2 * v.1 - u.1 * v.2.2,
    u.1 * v.2.1 - u.2.1 * v.1)

/-- In-place update of vertices[i] (no-op out of range; the pass only hits in-range
indices). -/
def updateVertex {K : Type} (vs : List (Vertex K)) (i : ℕ) (f : Vertex K → Vertex K) :
    List (Vertex K) :=
  match vs[i]? with
  | some v => vs.set i (f v)
  | none => vs

/-- The snow comparison color [0.9, 0.9, 0.9] (src/height_map.rs, lines 92 and
123-125). -/
noncomputable def snowColor : ℝ × ℝ × ℝ :=
  (9 / 10, 9 / 10, 9 / 10)

/-- The brown dirt tint [165/255, 42/255, 42/255] (src/height_map.rs, line 122). -/
noncomputable def dirtColor : ℝ × ℝ × ℝ :=
  (165 / 255, 42 / 255, 42 / 255)

/-- Membership of a vertex index in a triangle. -/
def inTri (v : ℕ) (t : ℕ × ℕ × ℕ) : Prop :=
  v = t.1 ∨ v = t.2.1 ∨ v = t.2.2

instance (v : ℕ) (t : ℕ × ℕ × ℕ) : Decidable (inTri v t) := by
  unfold inTri; infer_instance

/-- The normal write vertices[vi].normal = normal (src/height_map.rs, lines
118-120). -/
def setNormal (n : ℝ × ℝ × ℝ) (w : Vertex ℝ) : Vertex ℝ :=
  { w with normal := n }

/-- The conditional recolor of one incident vertex (src/height_map.rs, lines
123-125): set the dirt tint unless the color is already the snow color. -/
noncomputable def dirtify (w : Vertex ℝ) : Vertex ℝ :=
  if w.color = snowColor then w else { w with color := dirtColor }

/-- One iteration of the gen_normals loop (src/height_map.rs, lines 105-127) for the
triangle t = (indices[3i], indices[3i+1], indices[3i+2]): write the face normal into
all three incident vertices (overwriting whatever was there), then, when the
normal's vertical component is below 0.5, recolor each incident vertex to the dirt
tint unless it is already snow-colored. -/
noncomputable def genNormalsStep (vs : List (Vertex ℝ)) (t : ℕ × ℕ × ℕ) :
    List (Vertex ℝ) :=
  let n := faceNormal vs t
  let vs3 := updateVertex (updateVertex (updateVertex vs t.1 (setNormal n))
    t.2.1 (setNormal n)) t.2.2 (setNormal n)
  if n.2.1 < 1 / 2 then
    updateVertex (updateVertex (updateVertex vs3 t.1 dirtify) t.2.1 dirtify) t.2.2 dirtify
  else vs3

/-- The whole gen_normals pass (src/height_map.rs, lines 104-128): fold the per-
triangle step over the triangle list, left to right. -/
noncomputable def genNormals (vs : List (Vertex ℝ)) (tris : List (ℕ × ℕ × ℕ)) :
    List (Vertex ℝ) :=
  tris.foldl genNormalsStep vs

/-! ## Definitions: input handling, src/game.rs -/

/-- The exact value of the f32 constant std::f32::consts::PI * 0.499 computed in
Game::mouse_motion (src/game.rs, line 275): f32 PI is 13176795 * 2^-22, the f32
literal 0.499 is 8371831 * 2^-24, and their rounded f32 product is 6575221 * 2^-22,
about 1.5676548, within 1.2e-7 of the real 0.499 * pi. -/
def pitchClampBound : ℚ :=
  6575221 / 4194304

/-- The slice of Game state that the mouse and touch handlers read and write
(src/game.rs): camera.ground (yaw), camera.sky (pitch), the per-touch-id position
map, the movement finger, and the screen width used to split the screen in half. -/
structure InputState where
  ground : ℚ
  sky : ℚ
  touchPositions : List (ℕ × (ℚ × ℚ))
  movingBcFinger : Option ℕ
  screenW : ℚ
deriving DecidableEq

/-- The state at startup: camera ground and sky angles are 0 (src/game.rs, lines
108-109), the touch map is empty and no movement finger is active (lines 153-154). -/
def initInputState (w : ℚ) : InputState :=
  ⟨0, 0, [], none, w⟩

/-- HashMap::get on the touch-position map, modelled as an association list. -/
def lookupTouch (l : List (ℕ × (ℚ × ℚ))) (id : ℕ) : Option (ℚ × ℚ) :=
  (l.find? fun e => e.1 == id).map fun e => e.2

/-- HashMap::insert: any entry for the same id is replaced. -/
def insertTouch (l : List (ℕ × (ℚ × ℚ))) (id : ℕ) (p : ℚ × ℚ) : List (ℕ × (ℚ × ℚ)) :=
  (id, p) :: l.filter fun e => ! (e.1 == id)

/-- HashMap::remove. -/
def removeTouch (l : List (ℕ × (ℚ × ℚ))) (id : ℕ) : List (ℕ × (ℚ × ℚ)) :=
  l.filter fun e => ! (e.1 == id)

/-- Game::mouse_motion (src/game.rs, lines 272-276): yaw accumulates dx/500
unclamped; pitch accumulates -dy/500 and is then clamped to within plus or minus
PI * 0.499. -/
def mouseMotion (s : InputState) (dx dy : ℚ) : InputState :=
  { s with
    ground := s.ground + dx / 500,
    sky := rustClamp (s.sky - dy / 500) (-pitchClampBound) pitchClampBound }

/-- winit touch phases. -/
inductive TouchPhase where
  | Started
  | Moved
  | Ended
  | Cancelled
deriving DecidableEq

/-- Game::touch (src/game.rs, lines 278-301).  Moved: if the id is tracked in
touch_positions, feed the position delta to mouse_motion and store the new position.
Started: a touch at x <= screen_width/2 is tracked in touch_positions, otherwise it
becomes the movement finger.  Ended/Cancelled: drop the id from the map and clear the
movement finger if it matches. -/
def touch (s : InputState) (phase : TouchPhase) (id : ℕ) (loc : ℚ × ℚ) : InputState :=
  match phase with
  | .Moved =>
      match lookupTouch s.touchPositions id with
      | some last =>
          let s1 := mouseMotion s (loc.1 - last.1) (loc.2 - last.2)
          { s1 with touchPositions := insertTouch s1.touchPositions id loc }
      | none => s
  | .Started =>
      if loc.1 ≤ s.screenW / 2 then
        { s with touchPositions := insertTouch s.touchPositions id loc }
      else
        { s with movingBcFinger := some id }
  | .Ended =>
      let s1 := { s with touchPositions := removeTouch s.touchPositions id }
      if s1.movingBcFinger = some id then { s1 with movingBcFinger := none } else s1
  | .Cancelled =>
      let s1 := { s with touchPositions := removeTouch s.touchPositions id }
      if s1.movingBcFinger = some id then { s1 with movingBcFinger := none } else s1

/-- The movement condition of Game::render (src/game.rs, line 181): the camera walks
forward when the W key is down or a movement finger is active. -/
def movesForward (keysW : Bool) (s : InputState) : Bool :=
  keysW || s.movingBcFinger.isSome

/-- A camera-affecting input event: a raw mouse motion delta or a touch event. -/
inductive InputEvent where
  | mouse (dx dy : ℚ)
  | touchEv (phase : TouchPhase) (id : ℕ) (loc : ℚ × ℚ)

/-- Dispatch of one input event to its handler. -/
def applyEvent (s : InputState) : InputEvent → InputState
  | .mouse dx dy => mouseMotion s dx dy
  | .touchEv ph id loc => touch s ph id loc

/-- A whole input sequence, applied in arrival order. -/
def applyEvents (s : InputState) (evts : List InputEvent) : InputState :=
  evts.foldl applyEvent s

/-! ## Lemmas and claim theorems -/

/-- Elementwise description of the flag-setting fold: position j holds 1 as soon as
some processed slot has linear index j (and j is inside the accumulator), and is
otherwise untouched. -/
lemma foldl_set_one_getElem? (l : List (ℕ × ℕ)) :
    ∀ (acc : List ℕ) (j : ℕ),
      (l.foldl (fun arr pos => arr.set (slotIndex pos) 1) acc)[j]? =
        if (∃ p ∈ l, slotIndex p = j) ∧ j < acc.length then some 1 else acc[j]? := by
  induction l with
  | nil => intro acc j; simp
  | cons p l ih =>
    intro acc j
    simp only [List.foldl_cons]
    rw [ih]
    simp only [List.length_set, List.getElem?_set, List.mem_cons]
    by_cases hp : slotIndex p = j
    · by_cases hj : j < acc.length
      · simp [hp, hj]
      · simp [hp, hj, List.getElem?_eq_none (Nat.le_of_not_lt hj)]
    · by_cases hl : ∃ q ∈ l, slotIndex q = j
      · simp [hp, hl]
      · simp [hp, hl]

/-- The flag-setting fold preserves the array length. -/
lemma foldl_set_one_length (l : List (ℕ × ℕ)) :
    ∀ acc : List ℕ,
      (l.foldl (fun arr pos => arr.set (slotIndex pos) 1) acc).length = acc.length := by
  induction l with
  | nil => intro acc; rfl
  | cons p l ih => intro acc; simp [List.foldl_cons, ih]

lemma buildCollectedArr_length (n : ℕ) (l : List (ℕ × ℕ)) :
    (buildCollectedArr n l).length = n := by
  simp [buildCollectedArr, foldl_set_one_length]

lemma buildCollectedArr_getElem? (n : ℕ) (l : List (ℕ × ℕ)) (j : ℕ) (hj : j < n) :
    (buildCollectedArr n l)[j]? = some (if ∃ p ∈ l, slotIndex p = j then 1 else 0) := by
  rw [buildCollectedArr, foldl_set_one_getElem?]
  by_cases h : ∃ p ∈ l, slotIndex p = j
  · simp [h, hj]
  · simp [h, hj]

/-- Appending an already-collected slot does not change the rebuilt flag array. -/
lemma buildCollectedArr_dup (n : ℕ) (l : List (ℕ × ℕ)) (pos : ℕ × ℕ) (hmem : pos ∈ l) :
    buildCollectedArr n (l ++ [pos]) = buildCollectedArr n l := by
  apply List.ext_getElem?
  intro j
  by_cases hj : j < n
  · rw [buildCollectedArr_getElem? n _ j hj, buildCollectedArr_getElem? n l j hj]
    by_cases h : ∃ p ∈ l, slotIndex p = j
    · have h' : ∃ p ∈ l ++ [pos], slotIndex p = j := by
        obtain ⟨q, hq, hq'⟩ := h
        exact ⟨q, List.mem_append_left _ hq, hq'⟩
      rw [if_pos h, if_pos h']
    · have h' : ¬ ∃ p ∈ l ++ [pos], slotIndex p = j := by
        rintro ⟨q, hq, hq'⟩
        rcases List.mem_append.1 hq with hq | hq
        · exact h ⟨q, hq, hq'⟩
        · rcases List.mem_singleton.1 hq with rfl
          exact h ⟨q, hmem, hq'⟩
      rw [if_neg h, if_neg h']
  · have h1 : (buildCollectedArr n (l ++ [pos]))[j]? = none := by
      apply List.getElem?_eq_none
      rw [buildCollectedArr_length]
      exact Nat.le_of_not_lt hj
    have h2 : (buildCollectedArr n l)[j]? = none := by
      apply List.getElem?_eq_none
      rw [buildCollectedArr_length]
      exact Nat.le_of_not_lt hj
    rw [h1, h2]

/-- One collect call that passes the bounds check, written out. -/
lemma collect_pass (s : BananaInstances) (pos : ℕ × ℕ)
    (h : slotIndex pos < s.numBananas.1 * s.numBananas.2) :
    s.collect pos =
      { s with
        collected := s.collected ++ [pos],
        collectedBuffer :=
          buildCollectedArr (s.numBananas.1 * s.numBananas.2) (s.collected ++ [pos]) } := by
  rw [BananaInstances.collect, if_neg (Nat.not_le_of_lt h)]

/-- Folding collect over in-range slots in the Ny = 100 configuration, with Nx small
enough that in-range indices stay below the u32 wrap (Nx * 100 <= 2^32, true of the
shipped 100 x 100 grid): every call passes the bounds check, the collected list
grows by exactly the given slots, and the flag buffer is the rebuild from the full
list. -/
lemma foldl_collect_from (slots : List (ℕ × ℕ)) :
    ∀ (c : List (ℕ × ℕ)) (n0 : ℕ), n0 * 100 ≤ 4294967296 →
      (∀ p ∈ slots, p.1 < n0 ∧ p.2 < 100) →
      slots.foldl BananaInstances.collect
          ⟨c, buildCollectedArr (n0 * 100) c, (n0, 100)⟩ =
        ⟨c ++ slots, buildCollectedArr (n0 * 100) (c ++ slots), (n0, 100)⟩ := by
  induction slots with
  | nil => intro c n0 _ _; simp
  | cons p l ih =>
    intro c n0 hbound hin
    have hp := hin p (List.mem_cons_self p l)
    have hidx : slotIndex p < n0 * 100 := by
      have h1 := hp.1
      have h2 := hp.2
      simp only [slotIndex]
      omega
    have hstep := collect_pass ⟨c, buildCollectedArr (n0 * 100) c, (n0, 100)⟩ p hidx
    simp only [List.foldl_cons]
    rw [hstep]
    have := ih (c ++ [p]) n0 hbound (fun q hq => hin q (List.mem_cons_of_mem p hq))
    simpa [List.append_assoc] using this

/-- C3 (corrected: the code hard-codes the row stride 100, so the stated linear index
ix * Ny + iy is only correct when Ny = 100, the configuration the game ships with;
Nx * 100 <= 2^32 keeps the in-range u32 indices below the wrap, as on the shipped
100 x 100 grid): after any sequence of collect calls on in-range slots of an
Nx x 100 grid, the dense flag array holds 1 exactly at the linear indices
ix * 100 + iy (= ix * Ny + iy) of collected slots and 0 elsewhere, and a further
collect call never clears a set flag. -/
theorem c3_flags_mirror (n0 : ℕ) (slots : List (ℕ × ℕ))
    (hbound : n0 * 100 ≤ 4294967296)
    (hin : ∀ p ∈ slots, p.1 < n0 ∧ p.2 < 100) :
    (∀ j, j < n0 * 100 →
      (slots.foldl BananaInstances.collect (BananaInstances.new n0 100)).collectedBuffer[j]? =
        some (if ∃ p ∈ slots, p.1 * 100 + p.2 = j then 1 else 0)) ∧
    (∀ (pos : ℕ × ℕ) (j : ℕ),
      (slots.foldl BananaInstances.collect (BananaInstances.new n0 100)).collectedBuffer[j]? =
          some 1 →
      ((slots.foldl BananaInstances.collect (BananaInstances.new n0 100)).collect
          pos).collectedBuffer[j]? = some 1) := by
  have hnew : BananaInstances.new n0 100 =
      ⟨[], buildCollectedArr (n0 * 100) [], (n0, 100)⟩ := by
    simp [BananaInstances.new, buildCollectedArr]
  have hS : slots.foldl BananaInstances.collect (BananaInstances.new n0 100) =
      ⟨slots, buildCollectedArr (n0 * 100) slots, (n0, 100)⟩ := by
    rw [hnew]
    simpa using foldl_collect_from slots [] n0 hbound hin
  have hidx_eq : ∀ p ∈ slots, slotIndex p = p.1 * 100 + p.2 := by
    intro p hp
    have h1 := (hin p hp).1
    have h2 := (hin p hp).2
    simp only [slotIndex]
    omega
  constructor
  · intro j hj
    rw [hS]
    rw [buildCollectedArr_getElem? (n0 * 100) slots j hj]
    have hiff : (∃ p ∈ slots, slotIndex p = j) ↔ (∃ p ∈ slots, p.1 * 100 + p.2 = j) := by
      constructor
      · rintro ⟨p, hp, hpj⟩
        exact ⟨p, hp, by rw [← hidx_eq p hp]; exact hpj⟩
      · rintro ⟨p, hp, hpj⟩
        exact ⟨p, hp, by rw [hidx_eq p hp]; exact hpj⟩
    simp only [hiff]
  · intro pos j hflag
    rw [hS] at hflag ⊢
    have hjlt : j < n0 * 100 := by
      by_contra hge
      have : (buildCollectedArr (n0 * 100) slots)[j]? = none := by
        apply List.getElem?_eq_none
        rw [buildCollectedArr_length]
        exact Nat.le_of_not_lt hge
      simp only [this] at hflag
      exact Option.noConfusion hflag
    have hmem : ∃ p ∈ slots, slotIndex p = j := by
      by_contra hnone
      rw [buildCollectedArr_getElem? (n0 * 100) slots j hjlt] at hflag
      simp [hnone] at hflag
    by_cases hpass : n0 * 100 ≤ slotIndex pos
    · rw [BananaInstances.collect]
      simp only [if_pos hpass]
      rw [buildCollectedArr_getElem? (n0 * 100) slots j hjlt]
      simp [hmem]
    · rw [collect_pass _ pos (Nat.lt_of_not_le hpass)]
      dsimp only
      rw [buildCollectedArr_getElem? (n0 * 100) (slots ++ [pos]) j hjlt]
      have hmem' : ∃ p ∈ slots ++ [pos], slotIndex p = j := by
        obtain ⟨q, hq, hq'⟩ := hmem
        exact ⟨q, List.mem_append_left _ hq, hq'⟩
      rw [if_pos hmem']

/-- C3 witness: on a 2 x 100 grid, collecting the in-range slot (0, 5) sets flag 5. -/
theorem c3_flags_mirror_witness :
    ([((0 : ℕ), (5 : ℕ))].foldl BananaInstances.collect
        (BananaInstances.new 2 100)).collectedBuffer[5]? = some 1 := by
  have h := (c3_flags_mirror 2 [(0, 5)] (by norm_num) (by decide)).1 5 (by decide)
  simpa using h

set_option maxRecDepth 4000 in
/-- C3 counterexample: on a 200 x 2 grid the slot (1, 1) is in range (1 < 200, 1 < 2)
and is collected, but its flag is written at the hard-coded index 1*100 + 1 = 101, not
at the claimed linear index 1*Ny + 1 = 3, which stays 0. -/
theorem c3_counterexample :
    ((BananaInstances.new 200 2).collect (1, 1)).collected = [(1, 1)] ∧
    ((BananaInstances.new 200 2).collect (1, 1)).collectedBuffer[3]? = some 0 ∧
    ((BananaInstances.new 200 2).collect (1, 1)).collectedBuffer[101]? = some 1 := by
  decide

/-- C4 (corrected: collect appends unconditionally, so a second call on the same
in-range slot duplicates it in the collected list, size 2 rather than the claimed 1;
only the rebuilt dense flag buffer is unchanged by the duplicate): collecting the same
in-range slot twice leaves the slot twice in the collected list while the flag buffer
is identical to the one after a single call. -/
theorem c4_double_collect (s : BananaInstances) (pos : ℕ × ℕ)
    (h : slotIndex pos < s.numBananas.1 * s.numBananas.2) :
    ((s.collect pos).collect pos).collected.count pos = s.collected.count pos + 2 ∧
    ((s.collect pos).collect pos).collectedBuffer = (s.collect pos).collectedBuffer := by
  have h1 := collect_pass s pos h
  have hnum : (s.collect pos).numBananas = s.numBananas := by rw [h1]
  have h2 : slotIndex pos < (s.collect pos).numBananas.1 * (s.collect pos).numBananas.2 := by
    rw [hnum]; exact h
  have h3 := collect_pass (s.collect pos) pos h2
  constructor
  · rw [h3, h1]
    dsimp only
    simp [List.count_append, List.count_cons]
  · rw [h3, h1]
    dsimp only
    exact buildCollectedArr_dup (s.numBananas.1 * s.numBananas.2) (s.collected ++ [pos]) pos
      (List.mem_append_right _ (List.mem_singleton_self pos))

/-- C4 witness: on a 1 x 1 grid, collecting slot (0, 0) twice gives a collected list
holding the slot twice, with the flag buffer unchanged by the second call. -/
theorem c4_double_collect_witness :
    (((BananaInstances.new 1 1).collect (0, 0)).collect (0, 0)).collected.count (0, 0) =
        (BananaInstances.new 1 1).collected.count (0, 0) + 2 ∧
    (((BananaInstances.new 1 1).collect (0, 0)).collect (0, 0)).collectedBuffer =
        ((BananaInstances.new 1 1).collect (0, 0)).collectedBuffer :=
  c4_double_collect (BananaInstances.new 1 1) (0, 0) (by decide)

/-- C4 counterexample: collecting (0, 0) twice on a 1 x 1 grid leaves the slot in the
collected list twice, not once as the claim states. -/
theorem c4_counterexample :
    (((BananaInstances.new 1 1).collect (0, 0)).collect (0, 0)).collected.count (0, 0) = 2 := by
  decide

/-- C5 (corrected: the bounds check compares the wrapped aliased index
(ix*100 + iy) mod 2^32 against Nx*Ny, so in a release build collect is a silent
no-op exactly when that wrapped index is >= Nx*Ny; an out-of-grid slot whose
wrapped index is below Nx*Ny -- either directly, like (0, 3) on a 2 x 2 grid, or
through u32 overflow, like (42949673, 0) on the shipped 100 x 100 grid, whose
index wraps to 4 -- is accepted and mutates state, aliasing another slot's flag):
whenever the wrapped index is at least Nx*Ny the call returns the state unchanged,
reporting nothing. -/
theorem c5_silent_noop (s : BananaInstances) (pos : ℕ × ℕ)
    (h : s.numBananas.1 * s.numBananas.2 ≤ slotIndex pos) :
    s.collect pos = s := by
  rw [BananaInstances.collect, if_pos h]

/-- C5 witness: on a 2 x 2 grid, collect (0, 5) has aliased index 5 >= 4 and is a
complete no-op. -/
theorem c5_silent_noop_witness :
    (BananaInstances.new 2 2).collect (0, 5) = BananaInstances.new 2 2 :=
  c5_silent_noop (BananaInstances.new 2 2) (0, 5) (by decide)

/-- C5 counterexample: slot (0, 3) lies outside the 2 x 2 grid (3 >= Ny = 2), yet its
aliased index 0*100 + 3 = 3 is below Nx*Ny = 4, so collect is not a no-op: it appends
the slot and sets flag 3 (which aliases in-range slot (1, 1)).  On the shipped
100 x 100 grid the out-of-grid slot (42949673, 0) is likewise accepted, because
42949673 * 100 wraps modulo 2^32 to 4 < 10000 -- the slot is appended and flag 4
(in-range slot (0, 4)) is set. -/
theorem c5_counterexample :
    ((BananaInstances.new 2 2).collect (0, 3)).collected = [(0, 3)] ∧
    ((BananaInstances.new 2 2).collect (0, 3)).collectedBuffer = [0, 0, 0, 1] ∧
    ((BananaInstances.new 100 100).collect (42949673, 0)).collected =
      [(42949673, 0)] ∧
    ((BananaInstances.new 100 100).collect (42949673, 0)).collectedBuffer[4]? =
      some 1 := by
  refine ⟨by decide, by decide, ?_, ?_⟩
  · have hpass : ¬ ((BananaInstances.new 100 100).numBananas.1 *
        (BananaInstances.new 100 100).numBananas.2 ≤ slotIndex (42949673, 0)) := by
      decide
    rw [BananaInstances.collect, if_neg hpass]
    rfl
  · have hpass : ¬ ((BananaInstances.new 100 100).numBananas.1 *
        (BananaInstances.new 100 100).numBananas.2 ≤ slotIndex (42949673, 0)) := by
      decide
    rw [BananaInstances.collect, if_neg hpass]
    dsimp only
    have h4 : slotIndex (42949673, 0) = 4 := by decide
    have := buildCollectedArr_getElem?
      ((BananaInstances.new 100 100).numBananas.1 *
        (BananaInstances.new 100 100).numBananas.2)
      ((BananaInstances.new 100 100).collected ++ [(42949673, 0)]) 4 (by decide)
    rw [this, if_pos ⟨(42949673, 0), by simp, h4⟩]

lemma rustClamp_eq_self {x lo hi : ℚ} (h0 : ¬ x < lo) (h1 : ¬ x > hi) :
    rustClamp x lo hi = x := by
  rw [rustClamp, if_neg h0, if_neg h1]

lemma rustFract_of_nonneg {x : ℚ} (h : 0 ≤ x) : rustFract x = x - ⌊x⌋ := by
  rw [rustFract, rustTrunc, if_pos h]

lemma Image.getPixel_in_bounds (img : Image) {x y : ℕ} (hx : x < img.width)
    (hy : y < img.height) : img.getPixel x y = some (img.pixel x y) := by
  rw [Image.getPixel, if_pos ⟨hx, hy⟩]

/-- C1 evaluation: get_height_at panics (modelled as none) for a query at the max edge
of a 4 x 4 map with size 1: the input 3.0 is inside the clamp range [0, 4], but the
sampler then reads texel (3+1, 0) = (4, 0), which is out of bounds for the 4 x 4
image, so image::get_pixel panics instead of returning the clamped edge height. -/
theorem c1_edge_query_panics :
    (HeightMap.fromBytesData ⟨4, 4, fun _ _ => 7⟩ 1 1 1 1).get_height_at 3 0 = none := by
  have hfloor : (⌊(3 : ℚ)⌋ : ℤ) = 3 := by norm_num
  simp only [HeightMap.get_height_at, HeightMap.fromBytesData, Image.getPixel,
    rustClamp, rustFract, rustTrunc, floorToU32]
  norm_num [hfloor, show Int.toNat 3 = 3 from rfl]

/-- C2 (corrected: the two fractional weights are transposed relative to the claim --
x_fract weights the two corners that differ along the y texel axis and y_fract those
along the x texel axis): for every query strictly inside the sampled range,
get_height_at returns the blend of the four surrounding texel samples
(each sample/255 x height_multiplier) with exactly that transposed weighting. -/
theorem c2_bilinear_transposed (img : Image) (res : ℕ) (size : ℚ) (chunks : ℕ)
    (hmul x y : ℚ)
    (hx0 : 0 ≤ x / size) (hy0 : 0 ≤ y / size)
    (hx1 : x / size < (img.width : ℚ) - 1) (hy1 : y / size < (img.height : ℚ) - 1) :
    (HeightMap.fromBytesData img res size chunks hmul).get_height_at x y =
      some
        ((texelHeight img hmul (⌊x / size⌋).toNat (⌊y / size⌋).toNat
            + (texelHeight img hmul (⌊x / size⌋).toNat ((⌊y / size⌋).toNat + 1)
               - texelHeight img hmul (⌊x / size⌋).toNat (⌊y / size⌋).toNat)
              * (x / size - ⌊x / size⌋))
         + ((texelHeight img hmul ((⌊x / size⌋).toNat + 1) (⌊y / size⌋).toNat
             + (texelHeight img hmul ((⌊x / size⌋).toNat + 1) ((⌊y / size⌋).toNat + 1)
                - texelHeight img hmul ((⌊x / size⌋).toNat + 1) (⌊y / size⌋).toNat)
               * (x / size - ⌊x / size⌋))
            - (texelHeight img hmul (⌊x / size⌋).toNat (⌊y / size⌋).toNat
               + (texelHeight img hmul (⌊x / size⌋).toNat ((⌊y / size⌋).toNat + 1)
                  - texelHeight img hmul (⌊x / size⌋).toNat (⌊y / size⌋).toNat)
                 * (x / size - ⌊x / size⌋)))
           * (y / size - ⌊y / size⌋)) := by
  have hxw : ¬ x / size > (img.width : ℚ) := by
    push_neg
    exact le_of_lt (lt_of_lt_of_le hx1 (by linarith))
  have hyw : ¬ y / size > (img.height : ℚ) := by
    push_neg
    exact le_of_lt (lt_of_lt_of_le hy1 (by linarith))
  have hfx0 : (0 : ℤ) ≤ ⌊x / size⌋ := Int.floor_nonneg.2 hx0
  have hfy0 : (0 : ℤ) ≤ ⌊y / size⌋ := Int.floor_nonneg.2 hy0
  have hfx1 : ⌊x / size⌋ < (img.width : ℤ) - 1 := by
    have h1 : (⌊x / size⌋ : ℚ) < (img.width : ℚ) - 1 := lt_of_le_of_lt (Int.floor_le _) hx1
    exact_mod_cast h1
  have hfy1 : ⌊y / size⌋ < (img.height : ℤ) - 1 := by
    have h1 : (⌊y / size⌋ : ℚ) < (img.height : ℚ) - 1 := lt_of_le_of_lt (Int.floor_le _) hy1
    exact_mod_cast h1
  have hxi : (⌊x / size⌋).toNat + 1 < img.width := by omega
  have hyi : (⌊y / size⌋).toNat + 1 < img.height := by omega
  simp only [HeightMap.get_height_at, HeightMap.fromBytesData]
  rw [rustClamp_eq_self (not_lt.2 hx0) hxw, rustClamp_eq_self (not_lt.2 hy0) hyw]
  rw [rustFract_of_nonneg hx0, rustFract_of_nonneg hy0]
  simp only [floorToU32]
  rw [Image.getPixel_in_bounds img (by omega) (by omega),
    Image.getPixel_in_bounds img (by omega) hyi,
    Image.getPixel_in_bounds img hxi (by omega),
    Image.getPixel_in_bounds img hxi hyi]
  simp only [texelHeight]

/-- C2 witness: a 2 x 2 image whose samples vary only along the y texel axis, queried
at x texel offset 1/2: the transposed blend applies x_fract across that y variation,
giving 255/2 even though y_fract is 0. -/
theorem c2_bilinear_transposed_witness :
    (HeightMap.fromBytesData ⟨2, 2, fun _ q => if q = 0 then 0 else 255⟩ 1 1 1
        255).get_height_at (1 / 2) 0 = some (255 / 2) := by
  have h := c2_bilinear_transposed ⟨2, 2, fun _ q => if q = 0 then 0 else 255⟩ 1 1 1 255
    (1 / 2) 0 (by norm_num) (by norm_num) (by norm_num) (by norm_num)
  rw [h]
  norm_num [texelHeight, show Int.toNat 0 = 0 from rfl]

/-- C2 counterexample: samples 0 at y = 0 and 255 at y = 1 (no variation along x),
query at texel (1/2, 0).  The claimed weighting yields 0 (y_fract = 0 should kill the
y variation), but the code returns 255/2, because x_fract actually weights the pair
of corners that differ along the y texel axis. -/
theorem c2_counterexample :
    (HeightMap.fromBytesData ⟨2, 2, fun _ q => if q = 0 then 0 else 255⟩ 1 1 1
        255).get_height_at (1 / 2) 0 = some (255 / 2) ∧
    claimedBilinear ⟨2, 2, fun _ q => if q = 0 then 0 else 255⟩ 255 0 0 (1 / 2) 0 = 0 ∧
    (HeightMap.fromBytesData ⟨2, 2, fun _ q => if q = 0 then 0 else 255⟩ 1 1 1
        255).get_height_at (1 / 2) 0 ≠
      some (claimedBilinear ⟨2, 2, fun _ q => if q = 0 then 0 else 255⟩ 255 0 0 (1 / 2) 0) := by
  have hfloor : (⌊(1 : ℚ) / 2⌋ : ℤ) = 0 := by norm_num
  have h1 : (HeightMap.fromBytesData ⟨2, 2, fun _ q => if q = 0 then 0 else 255⟩ 1 1 1
      255).get_height_at (1 / 2) 0 = some (255 / 2) := by
    simp only [HeightMap.get_height_at, HeightMap.fromBytesData, Image.getPixel,
      rustClamp, rustFract, rustTrunc, floorToU32]
    norm_num [hfloor, show Int.toNat 0 = 0 from rfl]
  have h2 : claimedBilinear ⟨2, 2, fun _ q => if q = 0 then 0 else 255⟩ 255 0 0 (1 / 2) 0
      = 0 := by
    norm_num [claimedBilinear, texelHeight]
  refine ⟨h1, h2, ?_⟩
  rw [h1, h2]
  norm_num

/-- C10 (confirmed): get_height_at does not depend on the res downsampling parameter.
For two HeightMaps built from the same image, size and height multiplier but
different res, every query returns the same answer: the sampler reads the stored
full-resolution image and dimensions, while res only decimates the chunk meshes. -/
theorem c10_res_independent (img : Image) (r1 r2 : ℕ) (size : ℚ) (chunks : ℕ)
    (hmul x y : ℚ) :
    (HeightMap.fromBytesData img r1 size chunks hmul).get_height_at x y =
      (HeightMap.fromBytesData img r2 size chunks hmul).get_height_at x y := by
  simp only [HeightMap.get_height_at, HeightMap.fromBytesData]

lemma mul_add_lt_mul {x y k m : ℕ} (hx : x < k) (hy : y < m) : x * m + y < k * m := by
  calc x * m + y < x * m + m := by omega
  _ = (x + 1) * m := by ring
  _ ≤ k * m := Nat.mul_le_mul_right m hx

lemma length_range_flatMap {α : Type} (n m : ℕ) (f : ℕ → ℕ → α) :
    ((List.range n).flatMap fun x => (List.range m).map (f x)).length = n * m := by
  induction n with
  | zero => simp
  | succ k ih =>
    rw [List.range_succ, List.flatMap_append, List.length_append, ih]
    simp [Nat.succ_mul]

lemma getElem?_range_flatMap {α : Type} (n m : ℕ) (f : ℕ → ℕ → α) (x y : ℕ)
    (hx : x < n) (hy : y < m) :
    ((List.range n).flatMap fun x => (List.range m).map (f x))[x * m + y]? =
      some (f x y) := by
  induction n with
  | zero => omega
  | succ k ih =>
    rw [List.range_succ, List.flatMap_append, List.getElem?_append, length_range_flatMap]
    by_cases hxk : x < k
    · rw [if_pos (mul_add_lt_mul hxk hy)]
      exact ih hxk
    · have hxe : x = k := by omega
      subst hxe
      rw [if_neg (Nat.not_lt.2 (Nat.le_add_right _ _)), Nat.add_sub_cancel_left]
      simp [List.getElem?_map, List.getElem?_range hy]

lemma updateVertex_getElem? {K : Type} (vs : List (Vertex K)) (i : ℕ)
    (f : Vertex K → Vertex K) (j : ℕ) :
    (updateVertex vs i f)[j]? = if i = j then (vs[j]?).map f else vs[j]? := by
  unfold updateVertex
  cases h : vs[i]? with
  | none =>
    by_cases hij : i = j
    · subst hij
      rw [if_pos rfl, h]
      rfl
    · rw [if_neg hij]
  | some v =>
    have hlen : i < vs.length := by
      by_contra hge
      rw [List.getElem?_eq_none (Nat.le_of_not_lt hge)] at h
      exact Option.noConfusion h
    rw [List.getElem?_set]
    by_cases hij : i = j
    · subst hij
      rw [if_pos rfl, if_pos rfl, if_pos hlen, h]
      rfl
    · rw [if_neg hij, if_neg hij]

lemma updateVertex_length {K : Type} (vs : List (Vertex K)) (i : ℕ)
    (f : Vertex K → Vertex K) : (updateVertex vs i f).length = vs.length := by
  unfold updateVertex
  cases h : vs[i]? with
  | none => rfl
  | some v => exact List.length_set vs i (f v)

/-- Updating with a field-preserving function preserves that field everywhere. -/
lemma updateVertex_map_field {K β : Type} (vs : List (Vertex K)) (i : ℕ)
    (f : Vertex K → Vertex K) (g : Vertex K → β) (hf : ∀ w, g (f w) = g w) (j : ℕ) :
    ((updateVertex vs i f)[j]?).map g = (vs[j]?).map g := by
  rw [updateVertex_getElem?]
  by_cases hij : i = j
  · rw [if_pos hij]
    cases vs[j]? with
    | none => rfl
    | some w => simp [hf]
  · rw [if_neg hij]

lemma setNormal_position (n : ℝ × ℝ × ℝ) (w : Vertex ℝ) :
    (setNormal n w).position = w.position := rfl

lemma setNormal_color (n : ℝ × ℝ × ℝ) (w : Vertex ℝ) :
    (setNormal n w).color = w.color := rfl

lemma dirtify_position (w : Vertex ℝ) : (dirtify w).position = w.position := by
  rw [dirtify]; split <;> rfl

lemma dirtify_normal (w : Vertex ℝ) : (dirtify w).normal = w.normal := by
  rw [dirtify]; split <;> rfl

lemma dirtColor_ne_snowColor : dirtColor ≠ snowColor := by
  intro h
  have := congrArg Prod.fst h
  norm_num [dirtColor, snowColor] at this

lemma dirtify_color (w : Vertex ℝ) :
    (dirtify w).color = if w.color = snowColor then w.color else dirtColor := by
  rw [dirtify]
  by_cases h : w.color = snowColor
  · rw [if_pos h, if_pos h]
  · rw [if_neg h, if_neg h]

lemma dirtify_idem (w : Vertex ℝ) : dirtify (dirtify w) = dirtify w := by
  by_cases h : w.color = snowColor
  · have h1 : dirtify w = w := by rw [dirtify, if_pos h]
    rw [h1]
    exact h1
  · have h2 : dirtify w = { w with color := dirtColor } := by rw [dirtify, if_neg h]
    have hc : (dirtify w).color = dirtColor := by rw [h2]
    conv_lhs => rw [dirtify]
    rw [if_neg (by rw [hc]; exact dirtColor_ne_snowColor), h2]

lemma genNormalsStep_length (vs : List (Vertex ℝ)) (t : ℕ × ℕ × ℕ) :
    (genNormalsStep vs t).length = vs.length := by
  simp only [genNormalsStep]
  by_cases hn : (faceNormal vs t).2.1 < 1 / 2
  · rw [if_pos hn]
    simp [updateVertex_length]
  · rw [if_neg hn]
    simp [updateVertex_length]

lemma genNormals_cons (vs : List (Vertex ℝ)) (t : ℕ × ℕ × ℕ)
    (l : List (ℕ × ℕ × ℕ)) :
    genNormals vs (t :: l) = genNormals (genNormalsStep vs t) l := rfl

lemma genNormals_append (vs : List (Vertex ℝ)) (l1 l2 : List (ℕ × ℕ × ℕ)) :
    genNormals vs (l1 ++ l2) = genNormals (genNormals vs l1) l2 :=
  List.foldl_append _ _ l1 l2

lemma genNormals_length (tris : List (ℕ × ℕ × ℕ)) :
    ∀ vs : List (Vertex ℝ), (genNormals vs tris).length = vs.length := by
  induction tris with
  | nil => intro vs; rfl
  | cons t l ih =>
    intro vs
    rw [genNormals_cons, ih, genNormalsStep_length]

lemma genNormalsStep_map_position (vs : List (Vertex ℝ)) (t : ℕ × ℕ × ℕ) (j : ℕ) :
    ((genNormalsStep vs t)[j]?).map Vertex.position = (vs[j]?).map Vertex.position := by
  have hs : ∀ (ws : List (Vertex ℝ)) (i : ℕ) (n : ℝ × ℝ × ℝ),
      ((updateVertex ws i (setNormal n))[j]?).map Vertex.position =
        (ws[j]?).map Vertex.position :=
    fun ws i n => updateVertex_map_field ws i _ _ (setNormal_position n) j
  have hd : ∀ (ws : List (Vertex ℝ)) (i : ℕ),
      ((updateVertex ws i dirtify)[j]?).map Vertex.position =
        (ws[j]?).map Vertex.position :=
    fun ws i => updateVertex_map_field ws i _ _ dirtify_position j
  simp only [genNormalsStep]
  by_cases hn : (faceNormal vs t).2.1 < 1 / 2
  · rw [if_pos hn, hd, hd, hd, hs, hs, hs]
  · rw [if_neg hn, hs, hs, hs]

lemma genNormals_map_position (tris : List (ℕ × ℕ × ℕ)) :
    ∀ (vs : List (Vertex ℝ)) (j : ℕ),
      ((genNormals vs tris)[j]?).map Vertex.position = (vs[j]?).map Vertex.position := by
  induction tris with
  | nil => intro vs j; rfl
  | cons t l ih =>
    intro vs j
    rw [genNormals_cons, ih, genNormalsStep_map_position]

/-- C6 (confirmed): each chunk rectangle is extended by chunkExtra (one on the max
edge unless the chunk is last along the axis); the extended column of a chunk and
the first column of the next chunk along x, and likewise the extended row and the
first row of the next chunk along y, are built from the same texel (px, py) and so
get bit-identical positions; and the gen_normals pass moves no vertex position. -/
theorem c6_chunk_overlap (img : Image) (res : ℕ) (size hmul : ℚ) (chunks cx cy : ℕ) :
    (chunkVertices img res size hmul chunks cx cy).length =
      (img.width / res / chunks + chunkExtra chunks cx) *
        (img.height / res / chunks + chunkExtra chunks cy) ∧
    (∀ y : ℕ, cx + 1 < chunks → 0 < img.width / res / chunks →
      y < img.height / res / chunks + chunkExtra chunks cy →
      ((chunkVertices img res size hmul chunks cx cy)[
          (img.width / res / chunks) *
            (img.height / res / chunks + chunkExtra chunks cy) + y]?).map Vertex.position =
        ((chunkVertices img res size hmul chunks (cx + 1) cy)[y]?).map Vertex.position) ∧
    (∀ x : ℕ, cy + 1 < chunks → 0 < img.height / res / chunks →
      x < img.width / res / chunks + chunkExtra chunks cx →
      ((chunkVertices img res size hmul chunks cx cy)[
          x * (img.height / res / chunks + 1) + img.height / res / chunks]?).map
        Vertex.position =
        ((chunkVertices img res size hmul chunks cx (cy + 1))[
          x * (img.height / res / chunks + chunkExtra chunks (cy + 1))]?).map
          Vertex.position) ∧
    (∀ (vs : List (Vertex ℝ)) (tris : List (ℕ × ℕ × ℕ)) (j : ℕ),
      ((genNormals vs tris)[j]?).map Vertex.position = (vs[j]?).map Vertex.position) := by
  refine ⟨?_, ?_, ?_, fun vs tris j => genNormals_map_position tris vs j⟩
  · simp only [chunkVertices]
    exact length_range_flatMap _ _ _
  · intro y hcx hW hy
    have hex : chunkExtra chunks cx = 1 := by
      rw [chunkExtra, if_neg]
      omega
    simp only [chunkVertices]
    rw [getElem?_range_flatMap _ _ _ (img.width / res / chunks) y
      (by rw [hex]; omega) hy]
    have h0 : (0 : ℕ) < img.width / res / chunks + chunkExtra chunks (cx + 1) := by
      omega
    have hR := getElem?_range_flatMap
      (img.width / res / chunks + chunkExtra chunks (cx + 1))
      (img.height / res / chunks + chunkExtra chunks cy)
      (fun x y => vertexAt img res size hmul (x + img.width / res / chunks * (cx + 1))
        (y + img.height / res / chunks * cy)) 0 y h0 hy
    simp only [Nat.zero_mul, Nat.zero_add] at hR
    rw [hR]
    have harg : img.width / res / chunks + img.width / res / chunks * cx =
        img.width / res / chunks * (cx + 1) := by ring
    rw [harg]
  · intro x hcy hH hx
    have hey : chunkExtra chunks cy = 1 := by
      rw [chunkExtra, if_neg]
      omega
    simp only [chunkVertices, hey]
    rw [getElem?_range_flatMap _ _ _ x (img.height / res / chunks) hx (by omega)]
    have h0 : (0 : ℕ) < img.height / res / chunks + chunkExtra chunks (cy + 1) := by
      omega
    have hR := getElem?_range_flatMap
      (img.width / res / chunks + chunkExtra chunks cx)
      (img.height / res / chunks + chunkExtra chunks (cy + 1))
      (fun x y => vertexAt img res size hmul (x + img.width / res / chunks * cx)
        (y + img.height / res / chunks * (cy + 1))) x 0 hx h0
    simp only [Nat.add_zero] at hR
    rw [hR]
    have harg : img.height / res / chunks + img.height / res / chunks * cy =
        0 + img.height / res / chunks * (cy + 1) := by ring
    rw [harg]

/-- C6 witness: a 2 x 2 image split into 2 x 2 chunks of 1 x 1 texels each; the
overlap column of chunk (0,0) coincides in position with column 0 of chunk (1,0),
the overlap row with row 0 of chunk (0,1), and an empty normals pass moves nothing. -/
theorem c6_chunk_overlap_witness :
    ((chunkVertices ⟨2, 2, fun p q => 10 * p + q⟩ 1 (1 : ℚ) 1 2 0 0)[
        1 * (1 + chunkExtra 2 0) + 0]?).map Vertex.position =
      ((chunkVertices ⟨2, 2, fun p q => 10 * p + q⟩ 1 (1 : ℚ) 1 2 1 0)[0]?).map
        Vertex.position ∧
    ((chunkVertices ⟨2, 2, fun p q => 10 * p + q⟩ 1 (1 : ℚ) 1 2 0 0)[
        0 * (1 + 1) + 1]?).map Vertex.position =
      ((chunkVertices ⟨2, 2, fun p q => 10 * p + q⟩ 1 (1 : ℚ) 1 2 0 1)[
        0 * (1 + chunkExtra 2 1)]?).map Vertex.position := by
  have h := c6_chunk_overlap ⟨2, 2, fun p q => 10 * p + q⟩ 1 (1 : ℚ) 1 2 0 0
  exact ⟨h.2.1 0 (by decide) (by decide) (by decide),
    h.2.2.1 0 (by decide) (by decide) (by decide)⟩

lemma normal_writes (vs : List (Vertex ℝ)) (n : ℝ × ℝ × ℝ) (t : ℕ × ℕ × ℕ) (v : ℕ)
    (hv : inTri v t) (hlen : v < vs.length) :
    ((updateVertex (updateVertex (updateVertex vs t.1 (setNormal n)) t.2.1 (setNormal n))
        t.2.2 (setNormal n))[v]?).map Vertex.normal = some n := by
  obtain ⟨w, hw⟩ : ∃ w, vs[v]? = some w := by
    cases h : vs[v]? with
    | none =>
      rw [List.getElem?_eq_none_iff] at h
      omega
    | some w => exact ⟨w, rfl⟩
  simp only [updateVertex_getElem?]
  rcases hv with hveq | hveq | hveq
  · by_cases c2 : t.2.1 = v <;> by_cases c3 : t.2.2 = v <;>
      simp [hveq.symm, c2, c3, hw, setNormal]
  · by_cases c1 : t.1 = v <;> by_cases c3 : t.2.2 = v <;>
      simp [c1, hveq.symm, c3, hw, setNormal]
  · by_cases c1 : t.1 = v <;> by_cases c2 : t.2.1 = v <;>
      simp [c1, c2, hveq.symm, hw, setNormal]

lemma color_writes (vs : List (Vertex ℝ)) (t : ℕ × ℕ × ℕ) (v : ℕ) (w : Vertex ℝ)
    (hv : inTri v t) (hw : vs[v]? = some w) :
    ((updateVertex (updateVertex (updateVertex vs t.1 dirtify) t.2.1 dirtify)
        t.2.2 dirtify)[v]?).map Vertex.color =
      some (if w.color = snowColor then w.color else dirtColor) := by
  simp only [updateVertex_getElem?]
  rcases hv with hveq | hveq | hveq
  · by_cases c2 : t.2.1 = v <;> by_cases c3 : t.2.2 = v <;>
      simp [hveq.symm, c2, c3, hw, dirtify_idem, dirtify_color]
  · by_cases c1 : t.1 = v <;> by_cases c3 : t.2.2 = v <;>
      simp [c1, hveq.symm, c3, hw, dirtify_idem, dirtify_color]
  · by_cases c1 : t.1 = v <;> by_cases c2 : t.2.1 = v <;>
      simp [c1, c2, hveq.symm, hw, dirtify_idem, dirtify_color]

lemma genNormalsStep_normal (vs : List (Vertex ℝ)) (t : ℕ × ℕ × ℕ) (v : ℕ)
    (hv : inTri v t) (hlen : v < vs.length) :
    ((genNormalsStep vs t)[v]?).map Vertex.normal = some (faceNormal vs t) := by
  have hdn : ∀ (ws : List (Vertex ℝ)) (i : ℕ),
      ((updateVertex ws i dirtify)[v]?).map Vertex.normal = (ws[v]?).map Vertex.normal :=
    fun ws i => updateVertex_map_field ws i _ _ dirtify_normal v
  simp only [genNormalsStep]
  by_cases hn : (faceNormal vs t).2.1 < 1 / 2
  · rw [if_pos hn, hdn, hdn, hdn]
    exact normal_writes vs _ t v hv hlen
  · rw [if_neg hn]
    exact normal_writes vs _ t v hv hlen

lemma exists_of_map_color_eq {o : Option (Vertex ℝ)} {c : ℝ × ℝ × ℝ}
    (h : o.map Vertex.color = some c) : ∃ u, o = some u ∧ u.color = c := by
  cases o with
  | none => exact absurd h (by simp)
  | some u => exact ⟨u, rfl, by simpa using h⟩

lemma genNormalsStep_color_dirt (vs : List (Vertex ℝ)) (t : ℕ × ℕ × ℕ) (v : ℕ)
    (w : Vertex ℝ) (hv : inTri v t) (hw : vs[v]? = some w)
    (hn : (faceNormal vs t).2.1 < 1 / 2) :
    ((genNormalsStep vs t)[v]?).map Vertex.color =
      some (if w.color = snowColor then w.color else dirtColor) := by
  have hpre : ∀ (ws : List (Vertex ℝ)) (i : ℕ) (m : ℝ × ℝ × ℝ),
      ((updateVertex ws i (setNormal m))[v]?).map Vertex.color =
        (ws[v]?).map Vertex.color :=
    fun ws i m => updateVertex_map_field ws i _ _ (setNormal_color m) v
  simp only [genNormalsStep]
  rw [if_pos hn]
  have h3 : ((updateVertex (updateVertex (updateVertex vs t.1
      (setNormal (faceNormal vs t))) t.2.1 (setNormal (faceNormal vs t))) t.2.2
      (setNormal (faceNormal vs t)))[v]?).map Vertex.color =
      (vs[v]?).map Vertex.color := by
    rw [hpre, hpre, hpre]
  obtain ⟨w3, hw3, hc3⟩ := exists_of_map_color_eq (h3.trans (by rw [hw]; rfl))
  rw [color_writes _ t v w3 hv hw3, hc3]

lemma genNormalsStep_color_keep (vs : List (Vertex ℝ)) (t : ℕ × ℕ × ℕ) (v : ℕ)
    (hn : ¬ (faceNormal vs t).2.1 < 1 / 2) :
    ((genNormalsStep vs t)[v]?).map Vertex.color = (vs[v]?).map Vertex.color := by
  have hpre : ∀ (ws : List (Vertex ℝ)) (i : ℕ) (m : ℝ × ℝ × ℝ),
      ((updateVertex ws i (setNormal m))[v]?).map Vertex.color =
        (ws[v]?).map Vertex.color :=
    fun ws i m => updateVertex_map_field ws i _ _ (setNormal_color m) v
  simp only [genNormalsStep]
  rw [if_neg hn, hpre, hpre, hpre]

lemma genNormalsStep_not_mem (vs : List (Vertex ℝ)) (t : ℕ × ℕ × ℕ) (v : ℕ)
    (hv : ¬ inTri v t) : (genNormalsStep vs t)[v]? = vs[v]? := by
  have h1 : t.1 ≠ v := fun h => hv (Or.inl h.symm)
  have h2 : t.2.1 ≠ v := fun h => hv (Or.inr (Or.inl h.symm))
  have h3 : t.2.2 ≠ v := fun h => hv (Or.inr (Or.inr h.symm))
  simp only [genNormalsStep]
  by_cases hn : (faceNormal vs t).2.1 < 1 / 2
  · rw [if_pos hn]
    simp only [updateVertex_getElem?, if_neg h1, if_neg h2, if_neg h3]
  · rw [if_neg hn]
    simp only [updateVertex_getElem?, if_neg h1, if_neg h2, if_neg h3]

lemma genNormals_not_mem (tris : List (ℕ × ℕ × ℕ)) :
    ∀ (vs : List (Vertex ℝ)) (v : ℕ), (∀ t ∈ tris, ¬ inTri v t) →
      (genNormals vs tris)[v]? = vs[v]? := by
  induction tris with
  | nil => intro vs v _; rfl
  | cons t l ih =>
    intro vs v hv
    rw [genNormals_cons, ih _ v (fun u hu => hv u (List.mem_cons_of_mem t hu)),
      genNormalsStep_not_mem vs t v (hv t (List.mem_cons_self t l))]

lemma vposAt_congr {vs vs' : List (Vertex ℝ)} {i : ℕ}
    (h : (vs'[i]?).map Vertex.position = (vs[i]?).map Vertex.position) :
    vposAt vs' i = vposAt vs i := by
  rw [vposAt, vposAt, List.getD_eq_getElem?_getD, List.getD_eq_getElem?_getD]
  cases h1 : vs'[i]? with
  | none =>
    cases h2 : vs[i]? with
    | none => rfl
    | some b =>
      rw [h1, h2] at h
      exact absurd h (by simp)
  | some a =>
    cases h2 : vs[i]? with
    | none =>
      rw [h1, h2] at h
      exact absurd h (by simp)
    | some b =>
      rw [h1, h2] at h
      simpa using h

lemma faceNormal_congr {vs vs' : List (Vertex ℝ)} (t : ℕ × ℕ × ℕ)
    (h : ∀ j : ℕ, (vs'[j]?).map Vertex.position = (vs[j]?).map Vertex.position) :
    faceNormal vs' t = faceNormal vs t := by
  simp only [faceNormal]
  rw [vposAt_congr (h t.1), vposAt_congr (h t.2.1), vposAt_congr (h t.2.2)]

/-- C8 (corrected: the vertex normals are initialized to the unit up vector [0, 1, 0]
at vertex creation, not zero-initialized; everything else is as claimed): every
from_bytes vertex starts with normal [0, 1, 0]; for every triangle of the pass, the
face normal (normalized cross product of two edge vectors, a function of the original
positions, which the pass never changes) is written into all three incident vertices,
overwriting rather than averaging, so a vertex ends with the normal of the last
incident triangle processed; and a triangle whose face normal has vertical component
below 0.5 recolors each incident vertex to the dirt tint unless that vertex is
already snow-colored, while a triangle at or above 0.5 leaves colors unchanged. -/
theorem c8_normals_overwrite :
    (∀ (img : Image) (res : ℕ) (size hmul : ℝ) (px py : ℕ),
      (vertexAt img res size hmul px py).normal = (0, 1, 0)) ∧
    (∀ (vs : List (Vertex ℝ)) (l1 l2 : List (ℕ × ℕ × ℕ)) (t : ℕ × ℕ × ℕ) (v : ℕ),
      inTri v t → (∀ u ∈ l2, ¬ inTri v u) → v < vs.length →
      ((genNormals vs (l1 ++ t :: l2))[v]?).map Vertex.normal =
        some (faceNormal (genNormals vs l1) t) ∧
      faceNormal (genNormals vs l1) t = faceNormal vs t) ∧
    (∀ (vs : List (Vertex ℝ)) (t : ℕ × ℕ × ℕ) (v : ℕ) (w : Vertex ℝ),
      inTri v t → vs[v]? = some w → (faceNormal vs t).2.1 < 1 / 2 →
      ((genNormalsStep vs t)[v]?).map Vertex.color =
        some (if w.color = snowColor then w.color else dirtColor)) ∧
    (∀ (vs : List (Vertex ℝ)) (t : ℕ × ℕ × ℕ) (v : ℕ) (w : Vertex ℝ),
      vs[v]? = some w → ¬ (faceNormal vs t).2.1 < 1 / 2 →
      ((genNormalsStep vs t)[v]?).map Vertex.color = some w.color) := by
  refine ⟨fun img res size hmul px py => rfl, ?_, ?_, ?_⟩
  · intro vs l1 l2 t v hv hl2 hlen
    have hlen1 : v < (genNormals vs l1).length := by
      rw [genNormals_length]
      exact hlen
    constructor
    · rw [genNormals_append, genNormals_cons,
        genNormals_not_mem l2 _ v hl2, genNormalsStep_normal _ t v hv hlen1]
    · exact faceNormal_congr t (fun j => genNormals_map_position l1 vs j)
  · intro vs t v w hv hw hn
    exact genNormalsStep_color_dirt vs t v w hv hw hn
  · intro vs t v w hw hn
    rw [genNormalsStep_color_keep vs t v hn, hw]
    rfl

/-- C8 witness: a single triangle over the three vertices (0,0,0), (1,0,0), (0,0,1)
with black color; its face normal is (0, -1, 0) (downward, sqrt 1 = 1), which is
written into vertex 0 by the one-triangle pass, and since -1 < 0.5 and black is not
snow, vertex 0 is recolored to the dirt tint. -/
theorem c8_normals_overwrite_witness :
    (vertexAt ⟨1, 1, fun _ _ => 0⟩ 1 (1 : ℝ) 1 0 0).normal = (0, 1, 0) ∧
    ((genNormals
        [⟨(0, 0, 0), (0, 0, 0), (0, 1, 0)⟩, ⟨(1, 0, 0), (0, 0, 0), (0, 1, 0)⟩,
          ⟨(0, 0, 1), (0, 0, 0), (0, 1, 0)⟩] [(0, 1, 2)])[0]?).map Vertex.normal =
      some (faceNormal
        [⟨(0, 0, 0), (0, 0, 0), (0, 1, 0)⟩, ⟨(1, 0, 0), (0, 0, 0), (0, 1, 0)⟩,
          ⟨(0, 0, 1), (0, 0, 0), (0, 1, 0)⟩] (0, 1, 2)) ∧
    ((genNormalsStep
        [⟨(0, 0, 0), (0, 0, 0), (0, 1, 0)⟩, ⟨(1, 0, 0), (0, 0, 0), (0, 1, 0)⟩,
          ⟨(0, 0, 1), (0, 0, 0), (0, 1, 0)⟩] (0, 1, 2))[0]?).map Vertex.color =
      some dirtColor := by
  have hface : faceNormal
      [⟨(0, 0, 0), (0, 0, 0), (0, 1, 0)⟩, ⟨(1, 0, 0), (0, 0, 0), (0, 1, 0)⟩,
        ⟨(0, 0, 1), (0, 0, 0), (0, 1, 0)⟩] ((0 : ℕ), (1 : ℕ), (2 : ℕ)) =
      ((0 : ℝ), -1, 0) := by
    simp only [faceNormal, vposAt, normalize3, List.getD]
    norm_num [Real.sqrt_one]
  have h := c8_normals_overwrite
  refine ⟨h.1 ⟨1, 1, fun _ _ => 0⟩ 1 (1 : ℝ) 1 0 0, ?_, ?_⟩
  · have hb := (h.2.1
      [⟨(0, 0, 0), (0, 0, 0), (0, 1, 0)⟩, ⟨(1, 0, 0), (0, 0, 0), (0, 1, 0)⟩,
        ⟨(0, 0, 1), (0, 0, 0), (0, 1, 0)⟩] [] [] (0, 1, 2) 0
      (by decide) (by simp) (by norm_num)).1
    exact hb
  · have hsnow : ¬ ((⟨(0, 0, 0), (0, 0, 0), (0, 1, 0)⟩ : Vertex ℝ).color = snowColor) := by
      norm_num [snowColor, Prod.ext_iff]
    have hc := h.2.2.1
      [⟨(0, 0, 0), (0, 0, 0), (0, 1, 0)⟩, ⟨(1, 0, 0), (0, 0, 0), (0, 1, 0)⟩,
        ⟨(0, 0, 1), (0, 0, 0), (0, 1, 0)⟩] (0, 1, 2) 0 ⟨(0, 0, 0), (0, 0, 0), (0, 1, 0)⟩
      (by decide) rfl (by rw [hface]; norm_num)
    rw [if_neg hsnow] at hc
    exact hc

/-- C8 counterexample: a 1 x 1 heightmap yields a single vertex and no triangles, so
the gen_normals pass leaves the creation-time normal, which is the unit up vector
(0, 1, 0), not the zero vector the claim states. -/
theorem c8_counterexample :
    ((genNormals (chunkVertices ⟨1, 1, fun _ _ => 0⟩ 1 (1 : ℝ) 1 1 0 0) [])[0]?).map
        Vertex.normal = some ((0 : ℝ), 1, 0) ∧
    ((0 : ℝ), (1 : ℝ), (0 : ℝ)) ≠ ((0 : ℝ), (0 : ℝ), (0 : ℝ)) := by
  constructor
  · show ((chunkVertices ⟨1, 1, fun _ _ => 0⟩ 1 (1 : ℝ) 1 1 0 0)[0]?).map
        Vertex.normal = some ((0 : ℝ), 1, 0)
    simp [chunkVertices, chunkExtra, vertexAt, List.range_succ]
  · simp [Prod.ext_iff]

lemma lookupTouch_insert (l : List (ℕ × (ℚ × ℚ))) (id : ℕ) (p : ℚ × ℚ) :
    lookupTouch (insertTouch l id p) id = some p := by
  simp [lookupTouch, insertTouch]

/-- C7 (corrected: the two screen halves are swapped relative to the claim -- the
source routes a touch starting at x <= width/2, the LEFT half, into the
touch_positions map whose Moved deltas drive mouse_motion, while a touch starting on
the RIGHT half becomes moving_bc_finger, the movement flag Game::render walks
forward on): a left-half touch is tracked and its moves rotate the camera exactly
like mouse motion, without touching the movement flag; a right-half touch sets the
movement flag, is not tracked, and its moves leave the camera state unchanged. -/
theorem c7_touch_halves :
    (∀ (s : InputState) (id : ℕ) (loc : ℚ × ℚ),
      loc.1 ≤ s.screenW / 2 →
        (touch s .Started id loc).movingBcFinger = s.movingBcFinger ∧
        (touch s .Started id loc).ground = s.ground ∧
        (touch s .Started id loc).sky = s.sky ∧
        movesForward false (touch s .Started id loc) = movesForward false s) ∧
    (∀ (s : InputState) (id : ℕ) (loc loc2 : ℚ × ℚ),
      loc.1 ≤ s.screenW / 2 →
        (touch (touch s .Started id loc) .Moved id loc2).ground
            = s.ground + (loc2.1 - loc.1) / 500 ∧
        (touch (touch s .Started id loc) .Moved id loc2).sky
            = rustClamp (s.sky - (loc2.2 - loc.2) / 500) (-pitchClampBound)
                pitchClampBound) ∧
    (∀ (s : InputState) (id : ℕ) (loc : ℚ × ℚ),
      s.screenW / 2 < loc.1 →
        (touch s .Started id loc).movingBcFinger = some id ∧
        (touch s .Started id loc).touchPositions = s.touchPositions ∧
        movesForward false (touch s .Started id loc) = true) ∧
    (∀ (s : InputState) (id : ℕ) (loc loc2 : ℚ × ℚ),
      s.screenW / 2 < loc.1 → lookupTouch s.touchPositions id = none →
        touch (touch s .Started id loc) .Moved id loc2 = touch s .Started id loc) := by
  refine ⟨?_, ?_, ?_, ?_⟩
  · intro s id loc h
    simp [touch, if_pos h, movesForward]
  · intro s id loc loc2 h
    simp [touch, if_pos h, lookupTouch_insert, mouseMotion]
  · intro s id loc h
    simp [touch, if_neg (not_le.2 h), movesForward]
  · intro s id loc loc2 h hnone
    simp [touch, if_neg (not_le.2 h), hnone]

/-- C7 witness: on a 100-wide screen, the touch starting at x = 10 (left half) keeps
the movement flag clear and its move accumulates (30-10)/500 of yaw; the touch
starting at x = 80 (right half) sets the movement flag (render then walks), and its
move leaves the whole state unchanged. -/
theorem c7_touch_halves_witness :
    (touch (initInputState 100) .Started 0 (10, 10)).movingBcFinger
        = (initInputState 100).movingBcFinger ∧
    (touch (touch (initInputState 100) .Started 0 (10, 10)) .Moved 0 (30, 40)).ground
        = (initInputState 100).ground + ((30 : ℚ) - 10) / 500 ∧
    (touch (initInputState 100) .Started 1 (80, 10)).movingBcFinger = some 1 ∧
    movesForward false (touch (initInputState 100) .Started 1 (80, 10)) = true ∧
    touch (touch (initInputState 100) .Started 1 (80, 10)) .Moved 1 (90, 30)
        = touch (initInputState 100) .Started 1 (80, 10) := by
  have h := c7_touch_halves
  refine ⟨(h.1 (initInputState 100) 0 (10, 10) (by norm_num [initInputState])).1, ?_,
    (h.2.2.1 (initInputState 100) 1 (80, 10) (by norm_num [initInputState])).1,
    (h.2.2.1 (initInputState 100) 1 (80, 10) (by norm_num [initInputState])).2.2,
    h.2.2.2 (initInputState 100) 1 (80, 10) (90, 30) (by norm_num [initInputState]) rfl⟩
  have h2 := (h.2.1 (initInputState 100) 0 (10, 10) (30, 40)
    (by norm_num [initInputState])).1
  simpa using h2

/-- C7 counterexample: a touch starting at x = 80 on a 100-wide screen (the right
half) and then moving by (10, 20) leaves yaw and pitch at 0 -- it does not drive
rotation, it only sets the movement finger -- while the same gesture starting at
x = 10 (the left half) does rotate the camera (pitch becomes -1/50).  This is the
opposite of the claimed role of the two halves. -/
theorem c7_counterexample :
    (touch (touch (initInputState 100) .Started 0 (80, 10)) .Moved 0 (90, 30)).ground
        = 0 ∧
    (touch (touch (initInputState 100) .Started 0 (80, 10)) .Moved 0 (90, 30)).sky
        = 0 ∧
    (touch (touch (initInputState 100) .Started 0 (80, 10))
        .Moved 0 (90, 30)).movingBcFinger = some 0 ∧
    (touch (touch (initInputState 100) .Started 0 (10, 10)) .Moved 0 (10, 30)).sky
        = -(1 / 25) := by
  have hr : ((80 : ℚ) ≤ 100 / 2) = False := by norm_num
  have hl : ((10 : ℚ) ≤ 100 / 2) = True := by norm_num
  refine ⟨?_, ?_, ?_, ?_⟩
  · simp [touch, initInputState, lookupTouch, hr]
  · simp [touch, initInputState, lookupTouch, hr]
  · simp [touch, initInputState, lookupTouch, hr]
  · simp [touch, initInputState, hl, lookupTouch, insertTouch, mouseMotion,
      List.find?_cons]
    norm_num [rustClamp, pitchClampBound]

lemma rustClamp_mem_Icc (x : ℚ) {lo hi : ℚ} (h : lo ≤ hi) :
    lo ≤ rustClamp x lo hi ∧ rustClamp x lo hi ≤ hi := by
  rw [rustClamp]
  by_cases h1 : x < lo
  · rw [if_pos h1]
    exact ⟨le_refl lo, h⟩
  · rw [if_neg h1]
    by_cases h2 : x > hi
    · rw [if_pos h2]
      exact ⟨h, le_refl hi⟩
    · rw [if_neg h2]
      exact ⟨le_of_not_lt h1, le_of_not_lt h2⟩

lemma pitchClampBound_nonneg : (0 : ℚ) ≤ pitchClampBound := by
  norm_num [pitchClampBound]

lemma mouseMotion_sky_bound (s : InputState) (dx dy : ℚ) :
    |(mouseMotion s dx dy).sky| ≤ pitchClampBound := by
  have h := rustClamp_mem_Icc (s.sky - dy / 500) (neg_le_self pitchClampBound_nonneg)
  rw [abs_le]
  exact ⟨h.1, h.2⟩

lemma applyEvent_sky_bound (s : InputState) (e : InputEvent)
    (h : |s.sky| ≤ pitchClampBound) : |(applyEvent s e).sky| ≤ pitchClampBound := by
  cases e with
  | mouse dx dy => exact mouseMotion_sky_bound s dx dy
  | touchEv ph id loc =>
    cases ph with
    | Started =>
      by_cases hl : loc.1 ≤ s.screenW / 2
      · simpa [applyEvent, touch, if_pos hl] using h
      · simpa [applyEvent, touch, if_neg hl] using h
    | Moved =>
      cases hl : lookupTouch s.touchPositions id with
      | none => simpa [applyEvent, touch, hl] using h
      | some last =>
        have hb := mouseMotion_sky_bound s (loc.1 - last.1) (loc.2 - last.2)
        simpa [applyEvent, touch, hl] using hb
    | Ended =>
      simp only [applyEvent, touch]
      split <;> simpa using h
    | Cancelled =>
      simp only [applyEvent, touch]
      split <;> simpa using h

/-- C9 (confirmed, reading the bound as the code's f32 constant PI * 0.499, whose
exact value is pitchClampBound = 1.56765...): starting from the initial camera state,
after any sequence of mouse-motion and touch events the pitch angle (sky) remains
within [-pitchClampBound, pitchClampBound], regardless of the cumulative delta
magnitude, because every mouse_motion call re-clamps it. -/
theorem c9_pitch_clamped (w : ℚ) (evts : List InputEvent) :
    |(applyEvents (initInputState w) evts).sky| ≤ pitchClampBound := by
  have key : ∀ (l : List InputEvent) (s : InputState), |s.sky| ≤ pitchClampBound →
      |(applyEvents s l).sky| ≤ pitchClampBound := by
    intro l
    induction l with
    | nil => intro s hs; exact hs
    | cons e l ih =>
      intro s hs
      exact ih (applyEvent s e) (applyEvent_sky_bound s e hs)
  exact key evts (initInputState w) (by norm_num [initInputState, pitchClampBound])

end Islands3D
